import Mathlib

/-!
Verification development for the conditional volatility modelling and
forecasting engine of the `arch` repository (ARCH/GARCH-family models).
The repository's `src/` holds only example notebooks (callers of the
library); the engine itself (volatility recursions, mean models, the
estimator and the forecast engine) is therefore modelled from the
specification, faithfully to its words, and the claims are settled
against that model.  Real numbers are embedded as rationals: the
behaviours at stake (recursions, alignment, window bookkeeping, error
dispatch) are exact-arithmetic properties.
-/

namespace Arch

/-- Modelled from the spec: the error taxonomy of §7 (ERROR HANDLING
DESIGN).  The library's concrete exception classes are not in `src/`;
each spec condition becomes one constructor. -/
inductive ArchError where
  | configurationError
  | invalidParameter
  | insufficientHistory
  | unsupportedForecastMethod
  | shapeMismatch
  | numericalFailure
deriving DecidableEq, Repr

/-- Parameters of a GARCH(1,1) variance process: constant `omega`,
ARCH coefficient `alpha`, GARCH coefficient `beta`. -/
structure GarchParams where
  omega : ℚ
  alpha : ℚ
  beta : ℚ
deriving DecidableEq, Repr

/-- Modelled from the spec: the declared bounds of the GARCH volatility
parameters ("volatility process imposes non-negativity and
stationarity-type inequality constraints", §4.4): strictly positive
variance intercept and non-negative dynamic coefficients. -/
def GarchParams.inBounds (p : GarchParams) : Prop :=
  0 < p.omega ∧ 0 ≤ p.alpha ∧ 0 ≤ p.beta

instance (p : GarchParams) : Decidable p.inBounds := by
  unfold GarchParams.inBounds; infer_instance

/-- Modelled from the spec: the backcast seeding the recursion, "an
exponentially weighted average of the available squared residuals"
(§4.2), with decay `lam`. -/
def backcast (lam : ℚ) (resid : List ℚ) : ℚ :=
  let w := (List.range resid.length).map (fun i => lam ^ i)
  let tot := w.sum
  ((w.zip resid).map (fun q => q.1 * q.2 ^ 2)).sum / tot

/-- One step of the GARCH(1,1) variance recursion (§4.2): a weighted
combination of a constant, the lagged squared residual and the lagged
variance. -/
def garchStep (p : GarchParams) (eps2 lagVar : ℚ) : ℚ :=
  p.omega + p.alpha * eps2 + p.beta * lagVar

/-- Modelled from the spec: the variance recursion of §4.2, threading
the lagged squared residual and lagged variance through the residual
sequence.  `prevEps2`/`prevVar` are the state entering the current time
index (the backcast at index 0). -/
def garchRecFrom (p : GarchParams) (prevEps2 prevVar : ℚ) :
    List ℚ → List ℚ
  | [] => []
  | e :: rest =>
      let v := garchStep p prevEps2 prevVar
      v :: garchRecFrom p (e ^ 2) v rest

/-- The conditional variance sequence of a GARCH(1,1) process on a
residual sequence, seeded by the backcast (§4.2). -/
def garchRec (lam : ℚ) (p : GarchParams) (resid : List ℚ) : List ℚ :=
  let bc := backcast lam resid
  garchRecFrom p bc bc resid

/-- Modelled from the spec: the checked variance recursion — "any
non-positive value is a fatal numerical error" (§3), raised
"immediately rather than returning or propagating the corrupt value"
(§7 NumericalFailure). -/
def garchRecCheckedFrom (p : GarchParams) (prevEps2 prevVar : ℚ) :
    List ℚ → Except ArchError (List ℚ)
  | [] => .ok []
  | e :: rest =>
      let v := garchStep p prevEps2 prevVar
      if v ≤ 0 then .error .numericalFailure
      else (garchRecCheckedFrom p (e ^ 2) v rest).map (fun vs => v :: vs)

/-- Checked conditional variance computation, seeded by the backcast. -/
def garchRecChecked (lam : ℚ) (p : GarchParams) (resid : List ℚ) :
    Except ArchError (List ℚ) :=
  let bc := backcast lam resid
  garchRecCheckedFrom p bc bc resid

lemma backcast_nonneg (lam : ℚ) (hl : 0 ≤ lam) (resid : List ℚ) :
    0 ≤ backcast lam resid := by
  unfold backcast
  apply div_nonneg
  · apply List.sum_nonneg
    intro x hx
    simp only [List.mem_map] at hx
    obtain ⟨q, hq, rfl⟩ := hx
    have h1 : 0 ≤ q.1 := by
      have := List.of_mem_zip hq
      obtain ⟨hq1, _⟩ := this
      simp only [List.mem_map] at hq1
      obtain ⟨i, _, hi⟩ := hq1
      rw [← hi]
      exact pow_nonneg hl i
    exact mul_nonneg h1 (sq_nonneg _)
  · apply List.sum_nonneg
    intro x hx
    simp only [List.mem_map] at hx
    obtain ⟨i, _, rfl⟩ := hx
    exact pow_nonneg hl i

lemma garchStep_pos (p : GarchParams) (hb : p.inBounds)
    (eps2 lagVar : ℚ) (he : 0 ≤ eps2) (hv : 0 ≤ lagVar) :
    0 < garchStep p eps2 lagVar := by
  obtain ⟨ho, ha, hbeta⟩ := hb
  unfold garchStep
  have h1 : 0 ≤ p.alpha * eps2 := mul_nonneg ha he
  have h2 : 0 ≤ p.beta * lagVar := mul_nonneg hbeta hv
  linarith

lemma garchRecFrom_pos (p : GarchParams) (hb : p.inBounds) :
    ∀ (resid : List ℚ) (prevEps2 prevVar : ℚ),
      0 ≤ prevEps2 → 0 ≤ prevVar →
      ∀ v ∈ garchRecFrom p prevEps2 prevVar resid, 0 < v := by
  intro resid
  induction resid with
  | nil => intro _ _ _ _ v hv; simp [garchRecFrom] at hv
  | cons e rest ih =>
      intro prevEps2 prevVar he hv v hmem
      simp only [garchRecFrom, List.mem_cons] at hmem
      rcases hmem with rfl | hmem
      · exact garchStep_pos p hb _ _ he hv
      · exact ih (e ^ 2) _ (sq_nonneg e)
          (le_of_lt (garchStep_pos p hb _ _ he hv)) v hmem

lemma garchRecCheckedFrom_ok (p : GarchParams) (hb : p.inBounds) :
    ∀ (resid : List ℚ) (prevEps2 prevVar : ℚ),
      0 ≤ prevEps2 → 0 ≤ prevVar →
      garchRecCheckedFrom p prevEps2 prevVar resid =
        .ok (garchRecFrom p prevEps2 prevVar resid) := by
  intro resid
  induction resid with
  | nil => intro _ _ _ _; rfl
  | cons e rest ih =>
      intro prevEps2 prevVar he hv
      have hpos := garchStep_pos p hb prevEps2 prevVar he hv
      simp only [garchRecCheckedFrom, garchRecFrom, not_le.mpr hpos,
        if_false, ih (e ^ 2) _ (sq_nonneg e) (le_of_lt hpos)]
      rfl

/-- C3: for every GARCH parameter vector within the declared bounds and
every residual series, the conditional variance sequence is strictly
positive at every index; the checked recursion returns it without
raising, and conversely raises `NumericalFailure` immediately when a
step produces a non-positive value. -/
theorem garch_variance_positive (lam : ℚ) (hl : 0 ≤ lam)
    (p : GarchParams) (hb : p.inBounds) (resid : List ℚ) :
    (∀ v ∈ garchRec lam p resid, 0 < v) ∧
    garchRecChecked lam p resid = .ok (garchRec lam p resid) ∧
    (∀ (q : GarchParams) (e2 v0 e : ℚ) (rest : List ℚ),
      garchStep q e2 v0 ≤ 0 →
      garchRecCheckedFrom q e2 v0 (e :: rest) = .error .numericalFailure) := by
  have hbc := backcast_nonneg lam hl resid
  refine ⟨?_, ?_, ?_⟩
  · exact garchRecFrom_pos p hb resid _ _ hbc hbc
  · exact garchRecCheckedFrom_ok p hb resid _ _ hbc hbc
  · intro q e2 v0 e rest hstep
    simp [garchRecCheckedFrom, hstep]

/-- Witness for C3 at a concrete stationary parameter vector and
residual series. -/
theorem garch_variance_positive_witness :
    (0:ℚ) ≤ 94/100 ∧
    GarchParams.inBounds ⟨1/100, 5/100, 9/10⟩ ∧
    (∀ v ∈ garchRec (94/100) ⟨1/100, 5/100, 9/10⟩ [1, -2, 3], 0 < v) := by
  refine ⟨by norm_num, ⟨by norm_num, by norm_num, by norm_num⟩, ?_⟩
  exact (garch_variance_positive (94/100) (by norm_num)
    ⟨1/100, 5/100, 9/10⟩ ⟨by norm_num, by norm_num, by norm_num⟩ [1, -2, 3]).1

/-- A volatility model specification in the GARCH family: GJR-type
asymmetric term count `o` and power `power` (2 = ordinary variance
scale, 1 = absolute/TARCH scale), with coefficients for a (1,o,1)
specification. -/
structure VolModel where
  omega : ℚ
  alpha : ℚ
  gamma : ℚ
  beta : ℚ
  o : ℕ
  power : ℕ
deriving DecidableEq, Repr

/-- Modelled from the spec: a closed multi-step analytical form exists
"only for the plain symmetric power=2 case" (§4.2): no asymmetric
terms and quadratic power. -/
def VolModel.closedForm (m : VolModel) : Bool :=
  m.o == 0 && m.power == 2

/-- One-step-ahead expected powered variance for any model in the
family: constant plus powered absolute lagged residual (optionally
split by sign for the asymmetric term) plus lagged powered variance
(§4.2). -/
def VolModel.onestep (m : VolModel) (lastResid lastVarPow : ℚ) : ℚ :=
  m.omega + m.alpha * |lastResid| ^ m.power +
    (if 0 < m.o ∧ lastResid < 0 then m.gamma * |lastResid| ^ m.power else 0) +
    m.beta * lastVarPow

/-- The closed-form multi-step recursion for the symmetric quadratic
case, substituting the expectation at each step: entry `n` is the
horizon-`n+1` forecast. -/
def VolModel.analyticRec (m : VolModel) (first : ℚ) : ℕ → ℚ
  | 0 => first
  | n + 1 => m.omega + (m.alpha + m.beta) * m.analyticRec first n

/-- Modelled from the spec: the analytical forecast method of §4.2 —
closed form for the symmetric power-2 case at any horizon, one-step
forecasts for every ARCH-type model, and `UnsupportedForecastMethod`
for a multi-step request on a model lacking a closed form. -/
def forecastAnalytic (m : VolModel) (lastResid lastVarPow : ℚ)
    (horizon : ℕ) : Except ArchError (List ℚ) :=
  if horizon = 0 then .error .configurationError
  else if m.closedForm then
    .ok ((List.range horizon).map
      (m.analyticRec (m.onestep lastResid lastVarPow)))
  else if horizon = 1 then .ok [m.onestep lastResid lastVarPow]
  else .error .unsupportedForecastMethod

/-- C2: on a volatility model with asymmetric terms or non-quadratic
power, an analytical forecast with horizon greater than 1 fails with
`UnsupportedForecastMethod`; a one-step analytical forecast always
succeeds. -/
theorem analytic_forecast_dispatch (m : VolModel)
    (lastResid lastVarPow : ℚ) (horizon : ℕ) :
    ((0 < m.o ∨ m.power ≠ 2) → 1 < horizon →
      forecastAnalytic m lastResid lastVarPow horizon =
        .error .unsupportedForecastMethod) ∧
    (forecastAnalytic m lastResid lastVarPow 1).isOk = true := by
  constructor
  · intro hasym hh
    have hcf : m.closedForm = false := by
      unfold VolModel.closedForm
      rcases hasym with h | h
      · have : (m.o == 0) = false := beq_eq_false_iff_ne.mpr (by omega)
        simp [this]
      · have : (m.power == 2) = false := beq_eq_false_iff_ne.mpr h
        simp [this]
    unfold forecastAnalytic
    have h0 : horizon ≠ 0 := by omega
    have h1 : horizon ≠ 1 := by omega
    simp [h0, h1, hcf]
  · unfold forecastAnalytic
    by_cases hcf : m.closedForm = true
    · rw [if_neg (by norm_num), if_pos hcf]; rfl
    · rw [if_neg (by norm_num), if_neg hcf, if_pos rfl]; rfl

/-- Witness for C2: a TARCH/GJR specification (one asymmetric term,
power 2) analytically forecast at horizon 5 fails, and its one-step
forecast succeeds. -/
theorem analytic_forecast_dispatch_witness :
    forecastAnalytic ⟨1/100, 5/100, 1/10, 9/10, 1, 2⟩ 1 1 5 =
      .error .unsupportedForecastMethod ∧
    (forecastAnalytic ⟨1/100, 5/100, 1/10, 9/10, 1, 2⟩ 1 1 1).isOk = true := by
  exact ⟨(analytic_forecast_dispatch ⟨1/100, 5/100, 1/10, 9/10, 1, 2⟩ 1 1 5).1
      (Or.inl (by norm_num)) (by norm_num),
    (analytic_forecast_dispatch ⟨1/100, 5/100, 1/10, 9/10, 1, 2⟩ 1 1 5).2⟩

/-- The analytical GARCH(1,1) residual-variance forecast from the last
historical state `(lastEps2, lastVar)`: entry `n` is the horizon-`n+1`
forecast, obtained by substituting the conditional expectation of the
squared innovation at each step (§4.2). -/
def garchAnalyticF (p : GarchParams) (lastEps2 lastVar : ℚ) : ℕ → ℚ
  | 0 => garchStep p lastEps2 lastVar
  | n + 1 => p.omega + (p.alpha + p.beta) * garchAnalyticF p lastEps2 lastVar n

/-- Modelled from the spec: one simulated variance path of the
simulation forecast method (§4.2), run forward from the shared last
historical state; `innov n` is the standardized innovation drawn for
step `n`, so the simulated squared residual at that step is
`innov n ^ 2` times the prevailing variance. -/
def simPathVar (p : GarchParams) (innov : ℕ → ℚ)
    (lastEps2 lastVar : ℚ) : ℕ → ℚ
  | 0 => garchStep p lastEps2 lastVar
  | n + 1 =>
      garchStep p ((innov n) ^ 2 * simPathVar p innov lastEps2 lastVar n)
        (simPathVar p innov lastEps2 lastVar n)

/-- Modelled from the spec: the simulation-method expected forecast —
"average resulting variances across paths" (§4.2) over `N` paths. -/
def simForecastMean (p : GarchParams) (lastEps2 lastVar : ℚ)
    (paths : ℕ → ℕ → ℚ) (N : ℕ) (n : ℕ) : ℚ :=
  (∑ j ∈ Finset.range N, simPathVar p (paths j) lastEps2 lastVar n) / N

/-- C4: for GARCH(1,1), the one-step analytical variance forecast
equals the horizon-1 average of the simulation-method forecast over
`N` paths, for any drawn innovation paths and any positive `N` — the
horizon-1 simulated variance is innovation-free, so the Monte Carlo
average is exact. -/
theorem onestep_analytic_eq_simulation_mean (p : GarchParams)
    (lastEps2 lastVar : ℚ) (paths : ℕ → ℕ → ℚ) (N : ℕ) (hN : 0 < N) :
    simForecastMean p lastEps2 lastVar paths N 0 =
      garchAnalyticF p lastEps2 lastVar 0 := by
  unfold simForecastMean
  have hconst : ∀ j ∈ Finset.range N,
      simPathVar p (paths j) lastEps2 lastVar 0 =
        garchStep p lastEps2 lastVar := by
    intro j _; rfl
  rw [Finset.sum_congr rfl hconst, Finset.sum_const, Finset.card_range,
    nsmul_eq_mul]
  have hN' : (N : ℚ) ≠ 0 := Nat.cast_ne_zero.mpr hN.ne'
  rw [mul_div_cancel_left₀ _ hN']
  rfl

/-- Witness for C4 at the spec's parameter point ω=0.01, α=0.05,
β=0.90 with N = 100000 paths. -/
theorem onestep_analytic_eq_simulation_mean_witness :
    simForecastMean ⟨1/100, 5/100, 9/10⟩ 1 1 (fun _ _ => 0) 100000 0 =
      garchAnalyticF ⟨1/100, 5/100, 9/10⟩ 1 1 0 :=
  onestep_analytic_eq_simulation_mean ⟨1/100, 5/100, 9/10⟩ 1 1
    (fun _ _ => 0) 100000 (by norm_num)

lemma garchAnalyticF_pos (p : GarchParams) (hb : p.inBounds)
    (lastEps2 lastVar : ℚ) (he : 0 ≤ lastEps2) (hv : 0 ≤ lastVar) :
    ∀ n, 0 < garchAnalyticF p lastEps2 lastVar n := by
  intro n
  induction n with
  | zero => exact garchStep_pos p hb _ _ he hv
  | succ n ih =>
      obtain ⟨ho, ha, hbeta⟩ := hb
      have : 0 ≤ (p.alpha + p.beta) * garchAnalyticF p lastEps2 lastVar n :=
        mul_nonneg (by linarith) (le_of_lt ih)
      unfold garchAnalyticF
      linarith

/-- Modelled from the spec: the total-variance forecast for an AR(1)
mean with coefficient `phi` over a GARCH(1,1) residual process (§4.5):
the mean-path variance contribution composes with the residual-variance
recursion, the horizon-`n+1` forecast error being the `phi`-weighted sum
of the intervening shocks, so its variance is the `phi^(2*j)`-weighted
sum of the residual-variance forecasts. -/
def totalVarF (phi : ℚ) (p : GarchParams) (lastEps2 lastVar : ℚ)
    (n : ℕ) : ℚ :=
  ∑ j ∈ Finset.range (n + 1),
    phi ^ (2 * j) * garchAnalyticF p lastEps2 lastVar (n - j)

/-- C9: the total-variance forecast equals the residual-variance
forecast at every horizon when the mean model has no autoregressive
dynamics (`phi = 0`), and strictly exceeds it at every horizon greater
than 1 when the mean model has autoregressive feedback (`phi ≠ 0`),
for parameters within bounds. -/
theorem total_vs_residual_variance (phi : ℚ) (p : GarchParams)
    (hb : p.inBounds) (lastEps2 lastVar : ℚ)
    (he : 0 ≤ lastEps2) (hv : 0 ≤ lastVar) (n : ℕ) :
    (phi = 0 →
      totalVarF phi p lastEps2 lastVar n =
        garchAnalyticF p lastEps2 lastVar n) ∧
    (phi ≠ 0 → 0 < n →
      garchAnalyticF p lastEps2 lastVar n <
        totalVarF phi p lastEps2 lastVar n) := by
  constructor
  · intro hphi
    subst hphi
    unfold totalVarF
    rw [Finset.sum_eq_single_of_mem 0 (Finset.mem_range.mpr (by omega))]
    · simp
    · intro j _ hj
      rw [zero_pow (by omega)]
      ring
  · intro hphi hn
    unfold totalVarF
    rw [Finset.sum_range_succ']
    have h0 : phi ^ (2 * 0) * garchAnalyticF p lastEps2 lastVar (n - 0) =
        garchAnalyticF p lastEps2 lastVar n := by simp
    rw [h0]
    have htail : 0 < ∑ i ∈ Finset.range n,
        phi ^ (2 * (i + 1)) *
          garchAnalyticF p lastEps2 lastVar (n - (i + 1)) := by
      apply Finset.sum_pos
      · intro i _
        apply mul_pos
        · rw [pow_mul]
          exact pow_pos (by positivity) (i + 1)
        · exact garchAnalyticF_pos p hb _ _ he hv _
      · exact Finset.nonempty_range_iff.mpr (by omega)
    linarith

/-- Witness for C9: with AR coefficient 0.7 and the stationary GARCH
parameters, the horizon-2 total variance strictly exceeds the
residual variance; with coefficient 0 they coincide. -/
theorem total_vs_residual_variance_witness :
    (totalVarF 0 ⟨1/100, 5/100, 9/10⟩ 1 1 1 =
      garchAnalyticF ⟨1/100, 5/100, 9/10⟩ 1 1 1) ∧
    (garchAnalyticF ⟨1/100, 5/100, 9/10⟩ 1 1 1 <
      totalVarF (7/10) ⟨1/100, 5/100, 9/10⟩ 1 1 1) := by
  refine ⟨?_, ?_⟩
  · exact (total_vs_residual_variance 0 ⟨1/100, 5/100, 9/10⟩
      ⟨by norm_num, by norm_num, by norm_num⟩ 1 1 (by norm_num)
      (by norm_num) 1).1 rfl
  · exact (total_vs_residual_variance (7/10) ⟨1/100, 5/100, 9/10⟩
      ⟨by norm_num, by norm_num, by norm_num⟩ 1 1 (by norm_num)
      (by norm_num) 1).2 (by norm_num) (by norm_num)

/-- Parameters of an ARX(1) mean model with one exogenous regressor:
intercept `phi0`, AR coefficient `phi1`, regressor coefficient `bx`. -/
structure ArxParams where
  phi0 : ℚ
  phi1 : ℚ
  bx : ℚ
deriving DecidableEq, Repr

/-- The ARX(1)-X conditional mean under target alignment (§4.3): the
regressor value at index `t` explains observation `t`; meaningful for
`1 ≤ t` (one lag of `y` is required). -/
def condMeanARX (pr : ArxParams) (y x : ℕ → ℚ) (t : ℕ) : ℚ :=
  pr.phi0 + pr.phi1 * y (t - 1) + pr.bx * x t

/-- The in-sample residual of the ARX(1)-X model: observation minus
conditional mean. -/
def residARX (pr : ArxParams) (y x : ℕ → ℚ) (t : ℕ) : ℚ :=
  y t - condMeanARX pr y x t

/-- Modelled from the spec: the one-step-ahead mean forecast of the
forecast engine under origin alignment (§4.5) — the regressor value
supplying the expectation for `y[t+1]` given information at time `t`
is read at row `t` of the caller-supplied future-regressor structure
`xf`; an absent row yields an undefined forecast. -/
def forecastARX1 (pr : ArxParams) (y : ℕ → ℚ) (xf : ℕ → Option ℚ)
    (t : ℕ) : Option ℚ :=
  (xf t).map (fun xv => pr.phi0 + pr.phi1 * y t + pr.bx * xv)

/-- The one-period shift converting a target-aligned regressor series
of length `T` into an origin-aligned future-regressor structure: row
`t` holds the value at index `t+1`, and the final row is undefined
because no value exists one step beyond the last observation. -/
def shiftNeg1 (T : ℕ) (x : ℕ → ℚ) : ℕ → Option ℚ :=
  fun t => if t + 1 < T then some (x (t + 1)) else none

/-- C1: forecasting at horizon 1 from every origin with the
target-aligned regressors shifted by one period reproduces the
in-sample conditional mean `y - resid` at the following index, and the
forecast at the final origin is undefined. -/
theorem arx_origin_alignment (pr : ArxParams) (y x : ℕ → ℚ) (T t : ℕ) :
    (t + 1 < T →
      forecastARX1 pr y (shiftNeg1 T x) t =
        some (y (t + 1) - residARX pr y x (t + 1))) ∧
    (t + 1 = T →
      forecastARX1 pr y (shiftNeg1 T x) t = none) := by
  constructor
  · intro ht
    unfold forecastARX1 shiftNeg1 residARX condMeanARX
    rw [if_pos ht]
    simp only [Option.map_some']
    congr 1
    have : t + 1 - 1 = t := by omega
    rw [this]
    ring
  · intro ht
    unfold forecastARX1 shiftNeg1
    rw [if_neg (by omega)]
    rfl

/-- Witness for C1 on a length-3 sample: the origin-1 forecast equals
the conditional mean at index 2, and the origin-2 (final) forecast is
undefined. -/
theorem arx_origin_alignment_witness :
    (forecastARX1 ⟨3, 7/10, 2⟩ (fun n => n) (shiftNeg1 3 (fun n => n + 1)) 1 =
      some ((fun n => (n : ℚ)) 2 -
        residARX ⟨3, 7/10, 2⟩ (fun n => n) (fun n => n + 1) 2)) ∧
    (forecastARX1 ⟨3, 7/10, 2⟩ (fun n => n) (shiftNeg1 3 (fun n => n + 1)) 2 =
      none) :=
  ⟨(arx_origin_alignment ⟨3, 7/10, 2⟩ (fun n => n) (fun n => n + 1) 3 1).1
      (by norm_num),
   (arx_origin_alignment ⟨3, 7/10, 2⟩ (fun n => n) (fun n => n + 1) 3 2).2 rfl⟩

/-- A seedable pseudo-random generator state (spec §5: computations are
"deterministic (given a seed)"). -/
structure Gen where
  state : ℕ
deriving DecidableEq, Repr

/-- Construct a generator from a seed; identical seeds give identical
generators. -/
def mkGen (seed : ℕ) : Gen :=
  ⟨seed % 2 ^ 31⟩

/-- Advance the generator one step (linear congruential step) and emit
a rational value in [0,1). -/
def Gen.next (g : Gen) : ℚ × Gen :=
  let s : ℕ := (1103515245 * g.state + 12345) % 2 ^ 31
  ((s : ℚ) / 2 ^ 31, ⟨s⟩)

/-- Draw `n` values, threading the generator. -/
def drawMany (g : Gen) : ℕ → List ℚ × Gen
  | 0 => ([], g)
  | n + 1 =>
      let (v, g') := g.next
      let (vs, g'') := drawMany g' n
      (v :: vs, g'')

/-- The ambient session state: the module-level default generator that
unseeded calls consume (spec §9 notes the source's module-level default
generators). -/
structure Session where
  gen : Gen
deriving DecidableEq, Repr

/-- Forecast generation method selector. -/
inductive FMethod where
  | analytical
  | simulation
deriving DecidableEq, Repr

/-- Modelled from the spec: one `forecast` call of the Forecast Engine
(§4.5, §5) for a GARCH(1,1) residual process, returning the expected
horizon-`h` variance forecast and the updated session.  The analytical
method uses no randomness; the simulation method draws `N * h`
standardized innovations from a generator that is freshly seeded when a
seed is supplied and is the ambient session generator otherwise (only
the unseeded path advances the session). -/
def forecastCall (method : FMethod) (p : GarchParams)
    (lastEps2 lastVar : ℚ) (N h : ℕ) (seed : Option ℕ)
    (s : Session) : ℚ × Session :=
  match method with
  | .analytical => (garchAnalyticF p lastEps2 lastVar (h - 1), s)
  | .simulation =>
      let g0 := match seed with
        | some sd => mkGen sd
        | none => s.gen
      let (es, g1) := drawMany g0 (N * h)
      let out := simForecastMean p lastEps2 lastVar
        (fun j n => es.getD (j * h + n) 0) N (h - 1)
      (out, match seed with | some _ => s | none => ⟨g1⟩)

/-- C5: two `forecast` calls with identical arguments and a fixed seed
(or the analytical method, which uses no randomness) return identical
output whatever the ambient session state is at each call — in
particular on two back-to-back calls. -/
theorem forecast_two_run_determinism (p : GarchParams)
    (lastEps2 lastVar : ℚ) (N h sd : ℕ) (s₁ s₂ : Session) :
    (forecastCall .simulation p lastEps2 lastVar N h (some sd) s₁).1 =
      (forecastCall .simulation p lastEps2 lastVar N h (some sd) s₂).1 ∧
    ∀ seed : Option ℕ,
      (forecastCall .analytical p lastEps2 lastVar N h seed s₁).1 =
        (forecastCall .analytical p lastEps2 lastVar N h seed s₂).1 := by
  exact ⟨rfl, fun _ => rfl⟩

/-- Modelled from the spec: shape acceptance for the future-regressor
rows of a `forecast` call (§4.5) — the row count must equal either the
number of requested forecast origins (`T - start`) or the full original
sample length `T` (in which case the rows before `start` are ignored);
any other row count fails with `ShapeMismatch`. -/
def resolveXRows (T start : ℕ) (x : List ℚ) :
    Except ArchError (List ℚ) :=
  if x.length = T - start then .ok x
  else if x.length = T then .ok (x.drop start)
  else .error .shapeMismatch

/-- One-step mean forecasts at origins `start, start+1, …` from the
resolved future-regressor rows, under origin alignment. -/
def forecastXMeans (pr : ArxParams) (y : ℕ → ℚ) (T start : ℕ)
    (x : List ℚ) : Except ArchError (List ℚ) :=
  (resolveXRows T start x).map (fun rows =>
    (List.range rows.length).map (fun i =>
      pr.phi0 + pr.phi1 * y (start + i) + pr.bx * rows.getD i 0))

/-- C6: the future-regressor input is accepted iff its row count is
the number of forecast origins or the full sample length, and a
full-sample input yields forecasts identical to the trimmed input. -/
theorem forecast_x_shape (pr : ArxParams) (y : ℕ → ℚ)
    (T start : ℕ) (x : List ℚ) :
    ((resolveXRows T start x).isOk = true ↔
      (x.length = T - start ∨ x.length = T)) ∧
    (x.length = T →
      forecastXMeans pr y T start x =
        forecastXMeans pr y T start (x.drop start)) := by
  constructor
  · unfold resolveXRows
    constructor
    · intro hok
      by_contra hneg
      push_neg at hneg
      obtain ⟨h1, h2⟩ := hneg
      rw [if_neg h1, if_neg h2] at hok
      exact Bool.noConfusion hok
    · intro hd
      rcases hd with h1 | h2
      · rw [if_pos h1]; rfl
      · by_cases h1 : x.length = T - start
        · rw [if_pos h1]; rfl
        · rw [if_neg h1, if_pos h2]; rfl
  · intro hlen
    unfold forecastXMeans resolveXRows
    have hdrop : (x.drop start).length = T - start := by
      rw [List.length_drop, hlen]
    by_cases h1 : x.length = T - start
    · have hx : List.drop start x = x := by
        rcases Nat.eq_zero_or_pos T with hT | hT
        · have hnil : x = [] := List.eq_nil_of_length_eq_zero (by omega)
          rw [hnil]; simp
        · have h0 : start = 0 := by omega
          rw [h0]; simp
      rw [hx]
      simp only [if_pos h1]
    · rw [if_neg h1, if_pos hlen, if_pos hdrop]

/-- Witness for C6: with `T = 4`, `start = 2`, a full-sample input of
length 4 is accepted and produces the same forecasts as its trimmed
tail, while a length-3 input is rejected. -/
theorem forecast_x_shape_witness :
    ((resolveXRows 4 2 [1, 2, 3, 4]).isOk = true) ∧
    (forecastXMeans ⟨3, 7/10, 2⟩ (fun n => n) 4 2 [1, 2, 3, 4] =
      forecastXMeans ⟨3, 7/10, 2⟩ (fun n => n) 4 2 ([1, 2, 3, 4].drop 2)) ∧
    (resolveXRows 4 2 [1, 2, 3]).isOk = false := by
  refine ⟨?_, ?_, ?_⟩
  · exact (forecast_x_shape ⟨3, 7/10, 2⟩ (fun n => n) 4 2 [1, 2, 3, 4]).1.mpr
      (Or.inr (by norm_num))
  · exact (forecast_x_shape ⟨3, 7/10, 2⟩ (fun n => n) 4 2 [1, 2, 3, 4]).2
      (by norm_num)
  · rfl

/-- A candidate parameter vector lies within the declared per-parameter
bound intervals (§3: each parameter has a bound interval). -/
def inBoundsVec (bounds : List (ℚ × ℚ)) (c : List ℚ) : Bool :=
  bounds.length == c.length &&
    (bounds.zip c).all (fun bc => decide (bc.1.1 ≤ bc.2) && decide (bc.2 ≤ bc.1.2))

/-- The penalty assigned to a boundary-violating candidate point. -/
def penaltyValue : ℚ := 10 ^ 10

/-- Modelled from the spec: the objective seen by the optimizer —
"boundary violations are treated as penalized/rejected candidate
points, never evaluated against the likelihood" (§4.4, §7): the
negative log-likelihood `negll` is consulted only inside the bounds. -/
def evalCandidate (bounds : List (ℚ × ℚ)) (negll : List ℚ → ℚ)
    (c : List ℚ) : ℚ :=
  if inBoundsVec bounds c then negll c else penaltyValue

/-- The Fit result of the Estimator: fitted parameters, convergence
flag, optimizer diagnostic message and attained objective (§3, §4.4). -/
structure FitOutcome where
  params : List ℚ
  converged : Bool
  message : String
  objective : ℚ
deriving DecidableEq, Repr

/-- The optimizer's deterministic search: scan the candidate points,
keeping the best penalized-objective value, starting from the
caller-supplied starting values. -/
def searchMin (bounds : List (ℚ × ℚ)) (negll : List ℚ → ℚ)
    (start : List ℚ) (cands : List (List ℚ)) : List ℚ × ℚ :=
  cands.foldl (fun acc c =>
    let v := evalCandidate bounds negll c
    if v < acc.2 then (c, v) else acc)
    (start, evalCandidate bounds negll start)

/-- Modelled from the spec: the Estimator's fit (§4.4) — runs the
bounded search and reports non-convergence via the flag and a
diagnostic message rather than raising (§7: "reported via a flag
rather than raised"); convergence requires an in-bounds optimum with a
genuine (non-penalty) objective value. -/
def fitModel (bounds : List (ℚ × ℚ)) (negll : List ℚ → ℚ)
    (start : List ℚ) (cands : List (List ℚ)) :
    Except ArchError FitOutcome :=
  let best := searchMin bounds negll start cands
  let conv := inBoundsVec bounds best.1 && decide (best.2 < penaltyValue)
  .ok ⟨best.1, conv,
    if conv then "converged" else "optimizer failed to converge", best.2⟩

lemma searchMin_aux_mem (bounds : List (ℚ × ℚ)) (negll : List ℚ → ℚ) :
    ∀ (cands : List (List ℚ)) (acc : List ℚ × ℚ),
      (cands.foldl (fun acc c =>
        let v := evalCandidate bounds negll c
        if v < acc.2 then (c, v) else acc) acc).1 = acc.1 ∨
      (cands.foldl (fun acc c =>
        let v := evalCandidate bounds negll c
        if v < acc.2 then (c, v) else acc) acc).1 ∈ cands := by
  intro cands
  induction cands with
  | nil => intro acc; exact Or.inl rfl
  | cons c rest ih =>
      intro acc
      simp only [List.foldl_cons]
      rcases ih (if evalCandidate bounds negll c < acc.2
          then (c, evalCandidate bounds negll c) else acc) with h | h
      · by_cases hlt : evalCandidate bounds negll c < acc.2
        · right
          rw [h, if_pos hlt]
          exact List.mem_cons_self c rest
        · left
          rw [h, if_neg hlt]
      · right
        exact List.mem_cons_of_mem c h

/-- C7: the Estimator never raises — `fit` always returns a Fit result
whose parameters are one of the evaluated candidate vectors, with a
diagnostic message whenever the convergence flag is down — and a
boundary-violating candidate is assigned the penalty without the
likelihood being consulted (two fits differing only in likelihood agree
there). -/
theorem estimator_nonconvergence (bounds : List (ℚ × ℚ))
    (negll : List ℚ → ℚ) (start : List ℚ) (cands : List (List ℚ)) :
    (fitModel bounds negll start cands).isOk = true ∧
    (∀ fr, fitModel bounds negll start cands = .ok fr →
      fr.params ∈ start :: cands ∧
      (fr.converged = false → fr.message ≠ "")) ∧
    (∀ (f g : List ℚ → ℚ) (c : List ℚ), inBoundsVec bounds c = false →
      evalCandidate bounds f c = evalCandidate bounds g c) := by
  refine ⟨rfl, ?_, ?_⟩
  · intro fr hfr
    obtain rfl : (⟨(searchMin bounds negll start cands).1,
        inBoundsVec bounds (searchMin bounds negll start cands).1 &&
          decide ((searchMin bounds negll start cands).2 < penaltyValue),
        if (inBoundsVec bounds (searchMin bounds negll start cands).1 &&
            decide ((searchMin bounds negll start cands).2 < penaltyValue)) =
              true
          then "converged" else "optimizer failed to converge",
        (searchMin bounds negll start cands).2⟩ : FitOutcome) = fr :=
      Except.ok.inj hfr
    constructor
    · have hmem := searchMin_aux_mem bounds negll cands
        (start, evalCandidate bounds negll start)
      rcases hmem with h | h
      · show (searchMin bounds negll start cands).1 ∈ _
        rw [searchMin, h]
        exact List.mem_cons_self start cands
      · show (searchMin bounds negll start cands).1 ∈ _
        rw [searchMin]
        exact List.mem_cons_of_mem start h
    · intro hconv
      have hconv' : (inBoundsVec bounds (searchMin bounds negll start cands).1
          && decide ((searchMin bounds negll start cands).2 < penaltyValue)) =
            false := hconv
      show (if _ = true then "converged"
        else "optimizer failed to converge") ≠ ""
      rw [hconv']
      simp
  · intro f g c hc
    unfold evalCandidate
    rw [hc]
    simp

/-- Witness for C7: with bounds `[0,1]`, a starting value 2 outside the
domain and a single out-of-bounds candidate, `fit` still returns a
result, and the penalized objective at the violating point is the same
under two different likelihoods. -/
theorem estimator_nonconvergence_witness :
    (fitModel [((0:ℚ), 1)] (fun _ => 5) [2] [[3]]).isOk = true ∧
    inBoundsVec [((0:ℚ), 1)] [2] = false ∧
    evalCandidate [((0:ℚ), 1)] (fun _ => 5) [2] =
      evalCandidate [((0:ℚ), 1)] (fun _ => 7) [2] := by
  have hib : inBoundsVec [((0:ℚ), 1)] [2] = false := by
    unfold inBoundsVec
    norm_num
  exact ⟨(estimator_nonconvergence [((0:ℚ), 1)] (fun _ => 5) [2] [[3]]).1,
    hib,
    (estimator_nonconvergence [((0:ℚ), 1)] (fun _ => 5) [2] [[3]]).2.2
      (fun _ => 5) (fun _ => 7) [2] hib⟩

/-- Sample mean of the observations over the half-open estimation
window `[first, last)`. -/
def windowMean (y : ℕ → ℚ) (first last : ℕ) : ℚ :=
  (∑ t ∈ Finset.Ico first last, y t) / ((last - first : ℕ) : ℚ)

/-- Sample variance of the observations over the half-open estimation
window `[first, last)`. -/
def windowVar (y : ℕ → ℚ) (first last : ℕ) : ℚ :=
  (∑ t ∈ Finset.Ico first last, (y t - windowMean y first last) ^ 2) /
    ((last - first : ℕ) : ℚ)

/-- A Fit over an estimation window: constant-mean estimate and
constant-variance estimate (the closed-form Gaussian MLE over the
window). -/
structure WindowFit where
  mu : ℚ
  sigma2 : ℚ
deriving DecidableEq, Repr

/-- Modelled from the spec: fitting restricted to the window
`[first_obs, last_obs)` of the original series (§4.4): the estimates
read only that half-open window. -/
def fitWindow (y : ℕ → ℚ) (first last : ℕ) : WindowFit :=
  ⟨windowMean y first last, windowVar y first last⟩

/-- A constructed model object owning its observation series (§3:
immutable once constructed). -/
structure UnivariateModel where
  data : ℕ → ℚ

/-- Modelled from the spec: a `fit(first_obs, last_obs)` call on the
model, returning the Fit result together with the model state it
leaves behind — the original series is not copied or mutated (§4.4). -/
def fitWindowSt (m : UnivariateModel) (first last : ℕ) :
    WindowFit × UnivariateModel :=
  (fitWindow m.data first last, m)

/-- C8: fitting with `first_obs`/`last_obs` estimates over exactly the
half-open window — two series agreeing on `[first, last)` (in
particular, differing at index `last`) produce identical fits — and
the model's observation series is unchanged by the call. -/
theorem fit_window_halfopen_no_mutation (first last : ℕ) :
    (∀ y₁ y₂ : ℕ → ℚ, (∀ t, first ≤ t → t < last → y₁ t = y₂ t) →
      fitWindow y₁ first last = fitWindow y₂ first last) ∧
    (∀ m : UnivariateModel, (fitWindowSt m first last).2 = m) := by
  constructor
  · intro y₁ y₂ hagree
    have hsum : ∀ f₁ f₂ : ℕ → ℚ, (∀ t ∈ Finset.Ico first last, f₁ t = f₂ t) →
        ∑ t ∈ Finset.Ico first last, f₁ t =
          ∑ t ∈ Finset.Ico first last, f₂ t :=
      fun f₁ f₂ h => Finset.sum_congr rfl h
    have hmean : windowMean y₁ first last = windowMean y₂ first last := by
      unfold windowMean
      rw [hsum y₁ y₂ (fun t ht => by
        obtain ⟨h1, h2⟩ := Finset.mem_Ico.mp ht
        exact hagree t h1 h2)]
    unfold fitWindow
    rw [hmean]
    have hvar : windowVar y₁ first last = windowVar y₂ first last := by
      unfold windowVar
      rw [hmean]
      rw [hsum _ _ (fun t ht => by
        obtain ⟨h1, h2⟩ := Finset.mem_Ico.mp ht
        rw [hagree t h1 h2])]
    rw [hvar]
  · intro m; rfl

/-- Witness for C8: two series agreeing on `[2, 5)` but differing at
index 5 fit identically, and the model's data is returned untouched. -/
theorem fit_window_halfopen_no_mutation_witness :
    fitWindow (fun t => (t : ℚ)) 2 5 =
      fitWindow (fun t => if t = 5 then 99 else (t : ℚ)) 2 5 ∧
    (fitWindowSt ⟨fun t => (t : ℚ)⟩ 2 5).2 = ⟨fun t => (t : ℚ)⟩ :=
  ⟨(fit_window_halfopen_no_mutation 2 5).1 _ _
      (fun t h1 h2 => by
        have : t ≠ 5 := by omega
        simp [this]),
   (fit_window_halfopen_no_mutation 2 5).2 _⟩

/-- The maximum lag of a heterogeneous-lag (HARX) mean model; the
first usable index of the likelihood (§3: the first `max_lag` entries
are unavailable and excluded from the likelihood). -/
def maxLag (lags : List ℕ) : ℕ :=
  lags.foldr max 0

/-- A HAR lag regressor: the average of the `l` most recent lagged
observations (§4.3: daily/weekly/monthly lag aggregates). -/
def harRegressor (y : ℕ → ℚ) (l t : ℕ) : ℚ :=
  (∑ j ∈ Finset.Icc 1 l, y (t - j)) / (l : ℚ)

/-- The HARX conditional mean: intercept plus lag-aggregate terms with
their coefficients, with `mp` the mean-parameter block. -/
def harxCondMean (lags : List ℕ) (mp : List ℚ) (y : ℕ → ℚ) (t : ℕ) : ℚ :=
  mp.getD 0 0 + ∑ i ∈ Finset.range lags.length,
    mp.getD (i + 1) 0 * harRegressor y (lags.getD i 1) t

/-- The HARX residual: observation minus conditional mean. -/
def harxResid (lags : List ℕ) (mp : List ℚ) (y : ℕ → ℚ) (t : ℕ) : ℚ :=
  y t - harxCondMean lags mp y t

/-- Modelled from the spec: the log-likelihood of a HARX mean with a
FixedVariance volatility process — the caller-supplied variance
sequence scaled by the single `scale` parameter, summed over the usable
indices `[max_lag, T)` with per-observation contribution `g` of the
residual and the conditional variance (§4.3; the notebook records that
the pre-sample variance entries "will not be used to estimate the
model").  `g` is kept abstract: the claim holds for every
per-observation contribution. -/
def fvLoglik (g : ℚ → ℚ → ℚ) (lags : List ℕ) (y : ℕ → ℚ) (T : ℕ)
    (variance : List ℚ) (mp : List ℚ) (scale : ℚ) : ℚ :=
  ∑ t ∈ Finset.Ico (maxLag lags) T,
    g (harxResid lags mp y t) (scale * variance.getD t 0)

/-- Modelled from the spec: the deterministic fit of the
HARX-with-FixedVariance model — scan the candidate (mean-parameter,
scale) points and keep the best log-likelihood, returning the fitted
point and its log-likelihood. -/
def fvFit (g : ℚ → ℚ → ℚ) (lags : List ℕ) (y : ℕ → ℚ) (T : ℕ)
    (variance : List ℚ) (cands : List (List ℚ × ℚ)) :
    (List ℚ × ℚ) × ℚ :=
  cands.foldl (fun acc c =>
    let v := fvLoglik g lags y T variance c.1 c.2
    if acc.2 < v then (c, v) else acc)
    (([], 1), fvLoglik g lags y T variance [] 1)

/-- C10: for a HARX mean of maximum lag `L` with a FixedVariance
process, the pre-sample entries of the caller-supplied variance
sequence do not influence estimation: two variance sequences agreeing
from index `L` on give the same log-likelihood at every parameter
point, the same fitted parameters and attained log-likelihood, and
hence the same residuals (which depend only on the fitted mean
parameters). -/
theorem fixed_variance_presample_irrelevant (g : ℚ → ℚ → ℚ)
    (lags : List ℕ) (y : ℕ → ℚ) (T : ℕ) (v₁ v₂ : List ℚ)
    (cands : List (List ℚ × ℚ))
    (hagree : ∀ t, maxLag lags ≤ t → v₁.getD t 0 = v₂.getD t 0) :
    (∀ (mp : List ℚ) (scale : ℚ),
      fvLoglik g lags y T v₁ mp scale = fvLoglik g lags y T v₂ mp scale) ∧
    fvFit g lags y T v₁ cands = fvFit g lags y T v₂ cands ∧
    (∀ t, harxResid lags (fvFit g lags y T v₁ cands).1.1 y t =
      harxResid lags (fvFit g lags y T v₂ cands).1.1 y t) := by
  have hll : ∀ (mp : List ℚ) (scale : ℚ),
      fvLoglik g lags y T v₁ mp scale = fvLoglik g lags y T v₂ mp scale := by
    intro mp scale
    unfold fvLoglik
    apply Finset.sum_congr rfl
    intro t ht
    obtain ⟨h1, _⟩ := Finset.mem_Ico.mp ht
    rw [hagree t h1]
  have hfit : fvFit g lags y T v₁ cands = fvFit g lags y T v₂ cands := by
    unfold fvFit
    have hstep : (fun (acc : (List ℚ × ℚ) × ℚ) (c : List ℚ × ℚ) =>
        let v := fvLoglik g lags y T v₁ c.1 c.2
        if acc.2 < v then (c, v) else acc) =
        (fun acc c =>
        let v := fvLoglik g lags y T v₂ c.1 c.2
        if acc.2 < v then (c, v) else acc) := by
      funext acc c
      rw [hll c.1 c.2]
    rw [hstep, hll [] 1]
  exact ⟨hll, hfit, fun t => by rw [hfit]⟩

/-- Witness for C10: with lags `[1, 2]` (maximum lag 2) the variance
sequences `[1, 1, 4, 5]` and `[99, 77, 4, 5]`, differing only in the
two pre-sample entries, produce identical fits. -/
theorem fixed_variance_presample_irrelevant_witness :
    fvFit (fun e v => e + v) [1, 2] (fun n => (n : ℚ)) 4 [1, 1, 4, 5]
        [([1, 0, 0], 1), ([0, 1, 0], 2)] =
      fvFit (fun e v => e + v) [1, 2] (fun n => (n : ℚ)) 4 [99, 77, 4, 5]
        [([1, 0, 0], 1), ([0, 1, 0], 2)] := by
  have hagree : ∀ t, maxLag [1, 2] ≤ t →
      ([(1:ℚ), 1, 4, 5]).getD t 0 = ([(99:ℚ), 77, 4, 5]).getD t 0 := by
    intro t ht
    have hL : maxLag [1, 2] = 2 := rfl
    rw [hL] at ht
    match t, ht with
    | 2, _ => rfl
    | 3, _ => rfl
    | (n + 4), _ =>
        rw [List.getD_eq_default, List.getD_eq_default] <;> simp
  exact (fixed_variance_presample_irrelevant (fun e v => e + v) [1, 2]
    (fun n => (n : ℚ)) 4 [1, 1, 4, 5] [99, 77, 4, 5]
    [([1, 0, 0], 1), ([0, 1, 0], 2)] hagree).2.1

end Arch
